import Mathlib

/-!
A shallow embedding of the chain store of the relation-node repository
(store/postgres/src/chain_store.rs), together with theorems settling the
specification's claims about it.

Modelling conventions:
  * database tables are lists of rows; a connection is explicit state passing;
  * byte strings (Rust Vec<u8>, H256, H160, Postgres bytea) are lists of
    naturals; the Shared schema stores hashes as lowercase hex strings, an
    injective encoding of the same bytes, so the model keeps the bytes and
    notes where the source hex-encodes;
  * an operation returns a RunResult: ok, a returned error (the StoreError
    taxonomy), or panicked for a Rust panic (unwrap, expect, unreachable).
    A panic unwinds through the enclosing database transaction, which then
    never commits, so a panicking operation leaves the state unchanged;
  * machine integers (i32, i64) are Int with explicit clamping or wrapping
    where the source casts; U256/U64 are Nat.
-/

namespace RelNode

/-- Byte strings (Rust Vec of u8, bytea columns); a hash is its byte list. -/
abbrev Bytes := List Nat

/-- The error taxonomy surfaced by the store operations we model:
constraint violations, a missing row from a diesel first() call,
decode or parse failures, and the unsupported-operation error the
specification mentions (no code path in the source produces it). -/
inductive StoreError where
  | constraintViolation
  | notFound
  | parseFailure
  | unsupported
  | queryExecution
deriving DecidableEq, Repr

/-- Outcome of running an operation: a value, a returned error, or a Rust
panic (unwrap, expect, unreachable) which crashes the process. -/
inductive RunResult (α : Type) where
  | ok (a : α)
  | error (e : StoreError)
  | panicked
deriving DecidableEq, Repr

/-! ## Storage variant and namespace parsing (Storage::new) -/

/-- Embedding of Rust char::is_numeric: true for an ASCII decimal digit, and
for a non-ASCII character whose Unicode general category is N (Nd, Nl or No).
The range table below transcribes the category-N code points of the Basic
Multilingual Plane; the development only evaluates this function on BMP
code points. -/
def numericRangesBMP : List (Nat × Nat) :=
  [ (0x00B2, 0x00B3), (0x00B9, 0x00B9), (0x00BC, 0x00BE),
    (0x0660, 0x0669), (0x06F0, 0x06F9), (0x07C0, 0x07C9),
    (0x0966, 0x096F), (0x09E6, 0x09EF), (0x09F4, 0x09F9),
    (0x0A66, 0x0A6F), (0x0AE6, 0x0AEF), (0x0B66, 0x0B6F), (0x0B72, 0x0B77),
    (0x0BE6, 0x0BF2), (0x0C66, 0x0C6F), (0x0C78, 0x0C7E),
    (0x0CE6, 0x0CEF), (0x0D58, 0x0D5E), (0x0D66, 0x0D78),
    (0x0DE6, 0x0DEF), (0x0E50, 0x0E59), (0x0ED0, 0x0ED9),
    (0x0F20, 0x0F33), (0x1040, 0x1049), (0x1090, 0x1099),
    (0x1369, 0x137C), (0x16EE, 0x16F0), (0x17E0, 0x17E9), (0x17F0, 0x17F9),
    (0x1810, 0x1819), (0x1946, 0x194F), (0x19D0, 0x19DA),
    (0x1A80, 0x1A89), (0x1A90, 0x1A99), (0x1B50, 0x1B59),
    (0x1BB0, 0x1BB9), (0x1C40, 0x1C49), (0x1C50, 0x1C59),
    (0x2070, 0x2070), (0x2074, 0x2079), (0x2080, 0x2089),
    (0x2150, 0x2182), (0x2185, 0x2189),
    (0x2460, 0x249B), (0x24EA, 0x24FF), (0x2776, 0x2793), (0x2CFD, 0x2CFD),
    (0x3007, 0x3007), (0x3021, 0x3029), (0x3038, 0x303A),
    (0x3192, 0x3195), (0x3220, 0x3229), (0x3248, 0x324F),
    (0x3251, 0x325F), (0x3280, 0x3289), (0x32B1, 0x32BF),
    (0xA620, 0xA629), (0xA6E6, 0xA6EF), (0xA830, 0xA835),
    (0xA8D0, 0xA8D9), (0xA900, 0xA909), (0xA9D0, 0xA9D9),
    (0xA9F0, 0xA9F9), (0xAA50, 0xAA59), (0xABF0, 0xABF9),
    (0xFF10, 0xFF19) ]

/-- Embedding of Rust char::is_numeric (see numericRangesBMP). -/
def rustCharIsNumeric (c : Char) : Bool :=
  if c.val ≤ 0x7f then decide ('0' ≤ c) && decide (c ≤ '9')
  else numericRangesBMP.any (fun r => decide (r.1 ≤ c.toNat) && decide (c.toNat ≤ r.2))

/-- A Rust String is UTF-8; its chars() iterator yields unicode scalar
values, which we model as a list of Lean Char. -/
abbrev RustString := List Char

/-- Embedding of Rust str::len: the UTF-8 byte length of the string. -/
def rustStrLen (s : RustString) : Nat :=
  (s.map Char.utf8Size).sum

/-- The name field of the data::Schema struct. The table handles the Rust
struct also carries are name resolution only and have no model content. -/
structure Schema where
  name : RustString
deriving DecidableEq, Repr

/-- The Storage enum: chain data lives in shared tables or in a dedicated
per-chain database schema (constructor priv stands for Storage::Private;
private is a Lean keyword). -/
inductive Storage where
  | shared
  | priv (schema : Schema)
deriving DecidableEq, Repr

/-- Embedding of Storage::new: accept "public" as Shared; otherwise require
the prefix "chain" (5 bytes, checked with starts_with, equivalently on the
first five chars since the prefix is ASCII), a byte length strictly above 5,
and every remaining char numeric per Rust char::is_numeric. -/
def storageNew (s : RustString) : Except RustString Storage :=
  if s = "public".toList then .ok .shared
  else if ¬ (s.take 5 = "chain".toList) ∨ rustStrLen s ≤ 5 then .error s
  else if (s.drop 5).all rustCharIsNumeric then .ok (.priv ⟨s⟩) else .error s

/-- The specification's well-formedness predicate, written from the spec's
words: the namespace matches the regular expression chain[0-9]+, i.e. the
prefix "chain" followed by one or more ASCII decimal digits. -/
def specChainNamespace (s : RustString) : Bool :=
  s.take 5 = "chain".toList && !(s.drop 5).isEmpty
    && (s.drop 5).all (fun c => decide ('0' ≤ c) && decide (c ≤ '9'))

/-! ## Data model: block payloads and table rows -/

/-- Wrapping cast of an unsigned value below 2 to the 64 to a signed 64-bit
integer, as in the source's "x.as_u64() as i64". -/
def int64OfNat (n : Nat) : Int :=
  if n % 2 ^ 64 < 2 ^ 63 then ((n % 2 ^ 64 : Nat) : Int)
  else ((n % 2 ^ 64 : Nat) : Int) - 2 ^ 64

/-- True when a natural fits a signed 64-bit Postgres int8 column (writing a
larger decimal literal into int8 is an SQL error, which the source turns
into a panic through expect). -/
def fitsInt8 (n : Nat) : Bool :=
  n < 2 ^ 63

/-- fitsInt8 lifted to an optional column value (NULL always fits). -/
def optFitsInt8 : Option Nat → Bool
  | none => true
  | some n => fitsInt8 n

/-- A BlockPtr: the pair (hash, number) identifying a block. In the source
the number is a BlockNumber, an i32. -/
structure BlockPtr where
  hash : Bytes
  number : Int
deriving DecidableEq, Repr

/-- Modelled from the graph prelude (not under src/): BlockPtr::try_from on a
(hash, i64) pair checks that the hash decodes to exactly 32 bytes and that
the number fits a BlockNumber (i32), failing otherwise. -/
def blockPtrTryFrom (hash : Bytes) (number : Int) : RunResult BlockPtr :=
  if hash.length = 32 ∧ -(2 ^ 31) ≤ number ∧ number < 2 ^ 31 then
    .ok ⟨hash, number⟩
  else .error .parseFailure

/-- A log inside a transaction receipt, with the fields the receipt insert of
Storage::upsert_block reads (web3 Log). logType is Option String in the
source; the written SQL quotes it into the int8 log_type column, so any
non-NULL value produced by the chain client fails the cast and panics the
insert through expect. -/
structure EthLog where
  data : Bytes
  topics : List Bytes
  address : Bytes
  logType : Option String
  removed : Option Bool
  logIndex : Option Nat
  transactionHash : Option Bytes
  transactionIndex : Option Nat
deriving DecidableEq, Repr

/-- A transaction receipt with the fields Storage::upsert_block reads. -/
structure EthReceipt where
  cumulativeGasUsed : Nat
  effectiveGasUsed : Nat
  gasUsed : Option Nat
  fromAddr : Option Bytes
  toAddr : Option Bytes
  logs : List EthLog
deriving DecidableEq, Repr

/-- A transaction of a light block with the fields Storage::upsert_block
reads (web3 Transaction; fromAddr and toAddr stand for the Rust fields
"from" and "to"). -/
structure EthTransaction where
  hash : Bytes
  fromAddr : Bytes
  toAddr : Option Bytes
  value : Nat
  gas : Nat
  gasPrice : Nat
  input : Bytes
  nonce : Nat
  transactionIndex : Option Nat
  trxType : Nat
  maxFeePerGas : Option Nat
  maxPriorityFeePerGas : Option Nat
deriving DecidableEq, Repr

/-- A LightEthereumBlock: hash and number are optional in web3, number is a
U64. -/
structure LightBlock where
  hash : Option Bytes
  number : Option Nat
  parentHash : Bytes
  transactions : List EthTransaction
deriving DecidableEq, Repr

/-- An EthereumBlock: the light block plus its transaction receipts. Its
serde_json serialization is the jsonb data column; the model keeps the
value itself. -/
structure EthereumBlock where
  block : LightBlock
  transactionReceipts : List EthReceipt
deriving DecidableEq, Repr

/-- A row of the blocks table. The Shared variant stores
public.ethereum_blocks, which also has a network_name column; the Private
variant stores a per-chain blocks table without it. The model keeps one row
type; Private operations never read the network field. Hashes are stored
hex-encoded in the Shared table, an injective image of the bytes kept here. -/
structure BlockRow where
  network : String
  hash : Bytes
  number : Int
  parentHash : Bytes
  payload : EthereumBlock
deriving DecidableEq, Repr

/-- A row of the transactions table, restricted to the columns later read
by the source (hash for conflict resolution, block_number and the target
address for find_transaction_address); neither the shared
public.ethereum_transactions table (which has no target-address column at
all) nor the private table has a network column. -/
structure TxRow where
  hash : Bytes
  blockNumber : Int
  toAddr : Option Bytes
deriving DecidableEq, Repr

/-- A row of the receipts table; the source never reads this table back, so
only the primary key (transaction hash plus log index bytes, the first
column of the raw insert) is kept. -/
structure ReceiptRow where
  id : Bytes
deriving DecidableEq, Repr

/-- A row of the call_cache (Private) or eth_call_cache (Shared) table.
The shared table has no method_id or method_params columns, so the shared
insert leaves them none. -/
structure CallCacheRow where
  id : Bytes
  returnValue : Bytes
  contractAddress : Bytes
  blockNumber : Int
  methodId : Option Bytes
  methodParams : Option String
deriving DecidableEq, Repr

/-- A row of the call_meta / eth_call_meta table; accessed_at is a date,
modelled as a day count. -/
structure CallMetaRow where
  contractAddress : Bytes
  accessedAt : Int
deriving DecidableEq, Repr

/-- A row of the per-chain balance table. The stored amount is a numeric;
the source encodes a U256 through signed little-endian bytes and back,
which is the identity on the integer value. -/
structure BalanceRow where
  address : Bytes
  blockNumber : Int
  blockHash : Bytes
  amount : Int
deriving DecidableEq, Repr

/-- A row of the shared registry table public.ethereum_networks, restricted
to the columns the modelled operations touch. Hashes are stored as hex
strings; the model keeps the bytes. -/
structure NetworkRow where
  name : String
  headBlockHash : Option Bytes
  headBlockNumber : Option Int
  headUpdated : Int
  earlyHeadBlockHash : Option Bytes
  earlyHeadBlockNumber : Option Int
  earlyHeadUpdated : Int
deriving DecidableEq, Repr

/-- One row of the subgraph registry join used by cleanup_cached_blocks:
a deployment row (latest_ethereum_block_number, failed, network via
deployment_schemas) with an assigned flag standing for the existence of a
matching subgraph_deployment_assignment row. -/
structure SubgraphRow where
  network : String
  latestBlock : Option Int
  failed : Bool
  assigned : Bool
deriving DecidableEq, Repr

/-- The database state the modelled operations read and write. The clock:
today models CURRENT_DATE (a day count), now models now() timestamps. -/
structure DbState where
  blocks : List BlockRow
  transactions : List TxRow
  receipts : List ReceiptRow
  callCache : List CallCacheRow
  callMeta : List CallMetaRow
  balance : List BalanceRow
  networks : List NetworkRow
  subgraphs : List SubgraphRow
  today : Int
  now : Int
deriving DecidableEq, Repr

/-- The in-memory ChainStore: its chain name, storage variant and genesis
pointer (connection pool and update sender live outside the model; the
notification a head update sends is returned explicitly). -/
structure ChainStoreModel where
  chain : String
  storage : Storage
  genesisBlockPtr : BlockPtr
deriving DecidableEq, Repr

/-- Whether a blocks-table row belongs to the chain under the given storage
variant: the Shared SQL filters network_name = chain, the Private table
holds a single chain. -/
def blockInChain (storage : Storage) (chain : String) (b : BlockRow) : Bool :=
  match storage with
  | .shared => b.network = chain
  | .priv _ => true

/-! ## Balance ledger -/

/-- Embedding of Storage::upsert_balance. The Shared match arm of the source
holds only a comment and falls through to Ok(()): nothing is written and no
error is returned. The Private arm runs an insert with on conflict
(address, block_number) do update set amount; the U256 amount reaches the
numeric column through BigInt::from_unsigned_u256, to_signed_bytes_le and
from_signed_bytes_le, which compose to the identity on the value. -/
def upsert_balance (storage : Storage) (st : DbState) (address : Bytes)
    (amount : Nat) (blockPtr : BlockPtr) : RunResult Unit × DbState :=
  match storage with
  | .shared => (.ok (), st)
  | .priv _ =>
    let row : BalanceRow :=
      ⟨address, blockPtr.number, blockPtr.hash, (amount : Int)⟩
    if st.balance.any (fun r => r.address = address ∧ r.blockNumber = blockPtr.number) then
      (.ok (), { st with balance := st.balance.map (fun r =>
        if r.address = address ∧ r.blockNumber = blockPtr.number then
          { r with amount := (amount : Int) } else r) })
    else
      (.ok (), { st with balance := st.balance ++ [row] })

/-! ## Reorg confirmation and retention -/

/-- Embedding of Storage::confirm_block_hash: delete every block of the
chain at the given number whose hash differs from the given hash (the
Shared SQL additionally filters network_name = chain), returning the number
of deleted rows. -/
def confirm_block_hash (storage : Storage) (st : DbState) (chain : String)
    (number : Int) (hash : Bytes) : Nat × DbState :=
  let keep : BlockRow → Bool := fun b =>
    !(blockInChain storage chain b && decide (b.number = number) && decide (b.hash ≠ hash))
  let kept := st.blocks.filter keep
  (st.blocks.length - kept.length, { st with blocks := kept })

/-- Embedding of Storage::delete_blocks_before: delete every block of the
chain with number below the bound and number above zero, returning the
number of deleted rows. -/
def delete_blocks_before (storage : Storage) (st : DbState) (chain : String)
    (block : Int) : Nat × DbState :=
  let keep : BlockRow → Bool := fun b =>
    !(blockInChain storage chain b && decide (b.number < block) && decide (0 < b.number))
  let kept := st.blocks.filter keep
  (st.blocks.length - kept.length, { st with blocks := kept })

/-- The inner aggregate of the cleanup query: min(latest_ethereum_block_number)
over assigned, non-failed deployments of this network. SQL min skips NULL
inputs and is NULL on an empty set. -/
def subgraphMinBlock (st : DbState) (chain : String) : Option Int :=
  ((st.subgraphs.filter (fun d =>
      d.assigned && !d.failed && decide (d.network = chain))).filterMap
    (fun d => d.latestBlock)).min?

/-- Postgres LEAST: ignores NULL arguments, NULL only when all are NULL. -/
def leastOpt : Option Int → Option Int → Option Int
  | none, none => none
  | some a, none => some a
  | none, some b => some b
  | some a, some b => some (min a b)

/-- The scalar subquery of the cleanup query: head_block_number minus
ancestor_count for this chain, NULL when the registry row is absent or its
head is NULL. -/
def cleanupHeadBound (st : DbState) (chain : String) (ancestorCount : Int) :
    Option Int :=
  match st.networks.find? (fun n => n.name = chain) with
  | none => none
  | some row => row.headBlockNumber.map (fun h => h - ancestorCount)

/-- The block value the cleanup query computes:
coalesce(least(min subgraph head, head - ancestor_count), -1). -/
def cleanupCutoff (st : DbState) (chain : String) (ancestorCount : Int) : Int :=
  match leastOpt (subgraphMinBlock st chain) (cleanupHeadBound st chain ancestorCount) with
  | none => -1
  | some v => v

/-- Embedding of ChainStore::cleanup_cached_blocks: compute the cutoff; when
it is positive call delete_blocks_before and return the cutoff with the
deleted row count, otherwise do nothing and return None. -/
def cleanup_cached_blocks (cs : ChainStoreModel) (st : DbState)
    (ancestorCount : Int) : RunResult (Option (Int × Nat)) × DbState :=
  let block := cleanupCutoff st cs.chain ancestorCount
  if block > 0 then
    let r := delete_blocks_before cs.storage st cs.chain block
    (.ok (some (block, r.1)), r.2)
  else
    (.ok none, st)

/-! ## Transaction target addresses for the balance ledger -/

/-- Embedding of Storage::find_transaction_address: the Shared variant
returns an empty vector without querying; the Private variant selects the
target-address column of the transactions at exactly the pointed block
number, filtered to non-null, and converts each value with
H160::from_slice, which panics unless the value has 20 bytes. The SQL has
no DISTINCT, so duplicates survive. -/
def find_transaction_address (storage : Storage) (st : DbState)
    (blockPtr : BlockPtr) : RunResult (List Bytes) :=
  match storage with
  | .shared => .ok []
  | .priv _ =>
    let rows := (st.transactions.filter (fun t =>
        decide (t.blockNumber = blockPtr.number) && t.toAddr.isSome)).map
      (fun t => t.toAddr.getD [])
    if rows.all (fun a => a.length = 20) then .ok rows else .panicked

/-- Embedding of ChainStore::balance_address_list, which offloads
find_transaction_address onto a pooled connection. -/
def balance_address_list (cs : ChainStoreModel) (st : DbState)
    (blockPtr : BlockPtr) : RunResult (List Bytes) :=
  find_transaction_address cs.storage st blockPtr

/-! ## Call cache -/

/-- Embedding of Storage::set_call. Both variants first insert the cache row
with on conflict do nothing (the only unique constraint is the id primary
key). The Shared variant then upserts eth_call_meta with an unconditional
do update set accessed_at = CURRENT_DATE. The Private variant upserts
call_meta with do update ... where excluded.accessed_at < CURRENT_DATE: in
Postgres, excluded is the row proposed for insertion, whose accessed_at is
CURRENT_DATE itself, so the guard compares CURRENT_DATE with CURRENT_DATE;
the model binds that excluded value and compares it exactly as the SQL
does. method_params joins the call arguments with commas, NULL when the
argument list is empty; the shared table has no such columns. -/
def set_call (storage : Storage) (st : DbState) (id : Bytes)
    (contractAddress : Bytes) (blockNumber : Int) (returnValue : Bytes)
    (methodId : Bytes) (callArgs : List String) : RunResult Unit × DbState :=
  match storage with
  | .shared =>
    let cacheRows :=
      if st.callCache.any (fun r => r.id = id) then st.callCache
      else st.callCache ++
        [⟨id, returnValue, contractAddress, blockNumber, none, none⟩]
    let metaRows :=
      if st.callMeta.any (fun r => r.contractAddress = contractAddress) then
        st.callMeta.map (fun r =>
          if r.contractAddress = contractAddress then
            { r with accessedAt := st.today } else r)
      else st.callMeta ++ [⟨contractAddress, st.today⟩]
    (.ok (), { st with callCache := cacheRows, callMeta := metaRows })
  | .priv _ =>
    let cacheRows :=
      if st.callCache.any (fun r => r.id = id) then st.callCache
      else st.callCache ++
        [⟨id, returnValue, contractAddress, blockNumber, some methodId,
          if callArgs.isEmpty then none else some (String.intercalate "," callArgs)⟩]
    let metaRows :=
      if st.callMeta.any (fun r => r.contractAddress = contractAddress) then
        let excludedAccessedAt := st.today
        if excludedAccessedAt < st.today then
          st.callMeta.map (fun r =>
            if r.contractAddress = contractAddress then
              { r with accessedAt := st.today } else r)
        else st.callMeta
      else st.callMeta ++ [⟨contractAddress, st.today⟩]
    (.ok (), { st with callCache := cacheRows, callMeta := metaRows })

/-- Embedding of Storage::get_call_and_access: look up the cache row by id,
inner join call_meta on the contract address, and report the return value
together with the staleness flag CURRENT_DATE > accessed_at. Both variants
read the first matching row and treat no row as None. -/
def get_call_and_access (storage : Storage) (st : DbState) (id : Bytes) :
    RunResult (Option (Bytes × Bool)) :=
  match storage with
  | .shared | .priv _ =>
    match st.callCache.find? (fun r => r.id = id) with
    | none => .ok none
    | some cacheRow =>
      match st.callMeta.find? (fun m => m.contractAddress = cacheRow.contractAddress) with
      | none => .ok none
      | some metaRow => .ok (some (cacheRow.returnValue, st.today > metaRow.accessedAt))

/-- Embedding of Storage::update_accessed_at: set accessed_at to
CURRENT_DATE on the meta row of the contract. -/
def update_accessed_at (storage : Storage) (st : DbState)
    (contractAddress : Bytes) : DbState :=
  match storage with
  | .shared | .priv _ =>
    { st with callMeta := st.callMeta.map (fun r =>
      if r.contractAddress = contractAddress then
        { r with accessedAt := st.today } else r) }

/-- Embedding of contract_call_id: feed encoded_call, then the contract
address, then the block hash (and nothing else; in particular not the block
number) to a BLAKE3 hasher and take the digest. The hasher is an external
crate; updating it concatenates the byte stream, and the digest is some
fixed pure function of that stream, over which the development quantifies. -/
def contract_call_id (blake3 : Bytes → Bytes) (contractAddress : Bytes)
    (encodedCall : Bytes) (block : BlockPtr) : Bytes :=
  blake3 (encodedCall ++ contractAddress ++ block.hash)

/-- Embedding of ChainStore::get_call (EthereumCallCache): derive the id,
read the cache, and refresh accessed_at inside the same transaction when
the entry is stale. -/
def chainStoreGetCall (blake3 : Bytes → Bytes) (cs : ChainStoreModel)
    (st : DbState) (contractAddress : Bytes) (encodedCall : Bytes)
    (block : BlockPtr) : RunResult (Option Bytes) × DbState :=
  let id := contract_call_id blake3 contractAddress encodedCall block
  match get_call_and_access cs.storage st id with
  | .error e => (.error e, st)
  | .panicked => (.panicked, st)
  | .ok none => (.ok none, st)
  | .ok (some (returnValue, stale)) =>
    let st1 := if stale then update_accessed_at cs.storage st contractAddress else st
    (.ok (some returnValue), st1)

/-- Embedding of ChainStore::set_call (EthereumCallCache): derive the id and
store the entry; block.number as i32 is the identity since BlockNumber is
already an i32. -/
def chainStoreSetCall (blake3 : Bytes → Bytes) (cs : ChainStoreModel)
    (st : DbState) (contractAddress : Bytes) (encodedCall : Bytes)
    (block : BlockPtr) (returnValue : Bytes) (methodId : Bytes)
    (callArgs : List String) : RunResult Unit × DbState :=
  let id := contract_call_id blake3 contractAddress encodedCall block
  set_call cs.storage st id contractAddress block.number returnValue methodId callArgs

/-! ## Chain head candidate and the missing-parent walk -/

/-- Lexicographic order on byte strings, the Postgres bytea ordering; the
Shared table orders the hex encodings instead, which sorts the same way
because the per-byte hex encoding is order preserving. -/
def bytesLt : Bytes → Bytes → Bool
  | [], [] => false
  | [], _ :: _ => true
  | _ :: _, [] => false
  | a :: as, b :: bs => decide (a < b) || (decide (a = b) && bytesLt as bs)

/-- True when row a sorts before row b under ORDER BY number DESC, hash ASC. -/
def candidateBefore (a b : BlockRow) : Bool :=
  decide (b.number < a.number) || (decide (a.number = b.number) && bytesLt a.hash b.hash)

/-- First row of the candidate ordering (the SQL first() after the ORDER
BY); earlier rows win ties, whose projected columns coincide anyway. -/
def selectCandidate (rows : List BlockRow) : Option BlockRow :=
  rows.foldl (fun best r =>
    match best with
    | none => some r
    | some b => if candidateBefore r b then some r else some b) none

/-- Embedding of Storage::chain_head_candidate: read head_block_number of
the registry row (a diesel first() that errors when the row is absent),
default it to -1, and return the highest block strictly above it, ties
broken by hash order, converted through BlockPtr::try_from. -/
def chain_head_candidate (storage : Storage) (st : DbState) (chain : String) :
    RunResult (Option BlockPtr) :=
  match st.networks.find? (fun n => n.name = chain) with
  | none => .error .notFound
  | some row =>
    let head := row.headBlockNumber.getD (-1)
    let rows := st.blocks.filter (fun b =>
      blockInChain storage chain b && decide (head < b.number))
    match selectCandidate rows with
    | none => .ok none
    | some b =>
      match blockPtrTryFrom b.hash b.number with
      | .ok ptr => .ok (some ptr)
      | .error e => .error e
      | .panicked => .panicked

/-- One row of the recursive CTE named chain in the missing-parent SQL:
(hash, parent_hash, last). parent_hash is NULL exactly when the parent
lookup of the previous step failed; such a row always carries last = true. -/
structure CteRow where
  hash : Bytes
  parentHash : Option Bytes
  last : Bool
deriving DecidableEq, Repr

/-- Base case of the CTE: the head candidate block, provided its hash
differs from the genesis hash (the Shared SQL additionally filters
network_name = chain). -/
def cteBase (storage : Storage) (st : DbState) (chain : String)
    (hash genesis : Bytes) : List CteRow :=
  (st.blocks.filter (fun b =>
      blockInChain storage chain b && decide (b.hash = hash) && decide (b.hash ≠ genesis))).map
    (fun b => ⟨b.hash, some b.parentHash, false⟩)

/-- Recursion step of the CTE for one non-last row: left outer join the
blocks table on chain.parent_hash = b.hash. A failed lookup emits the
all-of-b-NULL row (parent missing, last true through the coalesce); a
successful one emits (parent, its parent, last when the number bound or
the genesis hash is reached). A generated row only lacks a parent hash
when its last flag is set, so the none branch (whose SQL output would be an
all-NULL row) cannot arise and is mapped to no rows. -/
def cteExpand (storage : Storage) (st : DbState) (chain : String)
    (firstBlock : Int) (genesis : Bytes) (row : CteRow) : List CteRow :=
  match row.parentHash with
  | none => []
  | some p =>
    let joined := st.blocks.filter (fun b =>
      blockInChain storage chain b && decide (b.hash = p))
    if joined.isEmpty then [⟨p, none, true⟩]
    else joined.map (fun b =>
      ⟨p, some b.parentHash, decide (b.number ≤ firstBlock) || decide (b.hash = genesis)⟩)

/-- Iterate the CTE: expand every non-last row of the frontier, accumulate
the produced rows, and stop when a step produces nothing. The fuel only
bounds the recursion for Lean; missing_parent passes enough for any
acyclic parent chain, and on cyclic data, where fuel could run out, the
SQL itself does not terminate. -/
def cteRun (expand : CteRow → List CteRow) :
    Nat → List CteRow → List CteRow → List CteRow
  | 0, _, acc => acc
  | fuel + 1, frontier, acc =>
    let next := (frontier.filter (fun r => !r.last)).flatMap expand
    if next.isEmpty then acc else cteRun expand fuel next (acc ++ next)

/-- The rows of the final select of the missing-parent SQL: every CTE row
whose parent_hash is NULL, projected to its hash. -/
def missingParentRows (storage : Storage) (st : DbState) (chain : String)
    (firstBlock : Int) (hash genesis : Bytes) : List Bytes :=
  let base := cteBase storage st chain hash genesis
  let rows := cteRun (cteExpand storage st chain firstBlock genesis)
    (st.blocks.length + 2) base base
  (rows.filter (fun r => r.parentHash = none)).map (fun r => r.hash)

/-- Embedding of Storage::missing_parent: run the recursive walk; no row
means the chain is complete (None), one row is the missing parent hash
(decoded with h256_from_bytes in the Private variant, failing with
ConstraintViolation unless it has 32 bytes, and with str::parse in the
Shared variant, failing on a malformed hex string, decoded here as the
same length check), and more than one row hits the unreachable! arm of the
source, a panic. -/
def missing_parent (storage : Storage) (st : DbState) (chain : String)
    (firstBlock : Int) (hash genesis : Bytes) : RunResult (Option Bytes) :=
  match storage with
  | .shared =>
    match missingParentRows storage st chain firstBlock hash genesis with
    | [] => .ok none
    | [x] => if x.length = 32 then .ok (some x) else .error .parseFailure
    | _ :: _ :: _ => .panicked
  | .priv _ =>
    match missingParentRows storage st chain firstBlock hash genesis with
    | [] => .ok none
    | [x] => if x.length = 32 then .ok (some x) else .error .constraintViolation
    | _ :: _ :: _ => .panicked

/-! ## Chain head advancement -/

/-- Saturating subtraction on i32, as in number.saturating_sub(ancestor_count). -/
def satSubI32 (a b : Int) : Int :=
  max (-(2 ^ 31)) (min (a - b) (2 ^ 31 - 1))

/-- The first_block bound of attempt_chain_head_update:
0.max(candidate.number.saturating_sub(ancestor_count)). -/
def firstBlockBound (candidateNumber ancestorCount : Int) : Int :=
  max 0 (satSubI32 candidateNumber ancestorCount)

/-- Update the registry row of the chain with a new head pointer, setting
head_updated = now(). -/
def updateNetworkHead (st : DbState) (chain : String) (ptr : BlockPtr) : DbState :=
  { st with networks := st.networks.map (fun n =>
    if n.name = chain then
      { n with headBlockHash := some ptr.hash, headBlockNumber := some ptr.number,
               headUpdated := st.now }
    else n) }

/-- Embedding of ChainStore::attempt_chain_head_update. Select the head
candidate; with none, return None. Otherwise run the missing-parent walk
from 0.max(candidate.number.saturating_sub(ancestor_count)); if it reports
a missing block hash, return it without touching the registry row.
Otherwise update the registry row in a transaction and, after it commits,
send the (hash, number) notification, returned here as the third
component. -/
def attempt_chain_head_update (cs : ChainStoreModel) (st : DbState)
    (ancestorCount : Int) :
    RunResult (Option Bytes) × DbState × Option (Bytes × Int) :=
  match chain_head_candidate cs.storage st cs.chain with
  | .error e => (.error e, st, none)
  | .panicked => (.panicked, st, none)
  | .ok none => (.ok none, st, none)
  | .ok (some ptr) =>
    let firstBlock := firstBlockBound ptr.number ancestorCount
    match missing_parent cs.storage st cs.chain firstBlock ptr.hash
        cs.genesisBlockPtr.hash with
    | .error e => (.error e, st, none)
    | .panicked => (.panicked, st, none)
    | .ok (some missing) => (.ok (some missing), st, none)
    | .ok none =>
      (.ok none, updateNetworkHead st cs.chain ptr, some (ptr.hash, ptr.number))

/-! ## Block, transaction and receipt writer -/

/-- Whether the raw transactions insert of the Private branch of
Storage::upsert_block goes through for one transaction without a panic:
transaction_index.unwrap() panics on None, and gas.as_u64(),
gas_price.as_u64() and trx_type.as_u64() panic when the U256 value
exceeds u64; max_fee_per_gas and max_priority_fee_per_gas are written as
decimal literals into int8 columns, so values outside int8 fail the
statement, whose result feeds an expect. -/
def privateTxOk (tx : EthTransaction) : Bool :=
  tx.transactionIndex.isSome && decide (tx.gas < 2 ^ 64)
    && decide (tx.gasPrice < 2 ^ 64) && decide (tx.trxType < 2 ^ 64)
    && optFitsInt8 tx.maxFeePerGas && optFitsInt8 tx.maxPriorityFeePerGas

/-- Whether the raw receipts insert of the Private branch goes through for
one log row: the id column (the value of transaction_hash) and the
transaction_index column are NOT NULL, a non-NULL log_type string fails the
cast into the int8 column (the chain client produces non-numeric strings
there), and the gas columns are int8. A failing statement panics through
the expect on execute. -/
def privateLogOk (log : EthLog) : Bool :=
  log.transactionHash.isSome && log.transactionIndex.isSome && log.logType.isNone

/-- Whether one receipt of the Private branch inserts without a panic; a
receipt with no logs produces no rows and is skipped. -/
def privateReceiptOk (r : EthReceipt) : Bool :=
  r.logs.isEmpty
    || (r.logs.all privateLogOk && fitsInt8 r.cumulativeGasUsed
        && fitsInt8 r.effectiveGasUsed && optFitsInt8 r.gasUsed)

/-- Insert transaction rows with on conflict (hash) do nothing: rows whose
hash already exists, including one inserted earlier in the same batch, are
skipped. -/
def insertTxRows (rows : List TxRow) (table : List TxRow) : List TxRow :=
  rows.foldl (fun acc r =>
    if acc.any (fun t => t.hash = r.hash) then acc else acc ++ [r]) table

/-- Insert receipt rows with on conflict (id) do nothing. -/
def insertReceiptRows (rows : List ReceiptRow) (table : List ReceiptRow) :
    List ReceiptRow :=
  rows.foldl (fun acc r =>
    if acc.any (fun t => t.id = r.id) then acc else acc ++ [r]) table

/-- Upsert the block row keyed by hash: on conflict overwrite number,
parent_hash and data (the Private blocks insert of Storage::upsert_block). -/
def upsertBlockRow (st : DbState) (row : BlockRow) : DbState :=
  if st.blocks.any (fun b => b.hash = row.hash) then
    { st with blocks := st.blocks.map (fun b =>
      if b.hash = row.hash then
        { b with number := row.number, parentHash := row.parentHash,
                 payload := row.payload }
      else b) }
  else { st with blocks := st.blocks ++ [row] }

/-- Embedding of Storage::upsert_block. Both variants first unwrap
block.block.number (a panic when the payload lacks the number) and
serialize the payload. The Shared variant unwraps block.block.hash (panic
when absent), builds one tuple per transaction, unwrapping each
transaction_index (panic when absent), and inserts them into
public.ethereum_transactions with on conflict (hash) do nothing; it writes
no block row (that path is upsert_light_block). The Private variant
unwraps block.block.hash (panic when absent), upserts the block row
overwriting on hash conflict, then runs the raw receipts insert per
receipt and the raw transactions insert, each of which panics (through
unwrap, as_u64 or the expect around execute) unless privateReceiptOk and
privateTxOk hold. A panic aborts the enclosing transaction, so the state
returned with panicked is the unchanged input state. -/
def upsert_block (storage : Storage) (st : DbState) (chain : String)
    (block : EthereumBlock) : RunResult Unit × DbState :=
  match block.block.number with
  | none => (.panicked, st)
  | some number =>
    let numberI : Int := int64OfNat number
    match storage with
    | .shared =>
      match block.block.hash with
      | none => (.panicked, st)
      | some _hash =>
        if block.block.transactions.all (fun tx => tx.transactionIndex.isSome) then
          let rows := block.block.transactions.map (fun tx =>
            TxRow.mk tx.hash numberI none)
          (.ok (), { st with transactions := insertTxRows rows st.transactions })
        else (.panicked, st)
    | .priv _ =>
      match block.block.hash with
      | none => (.panicked, st)
      | some hash =>
        let st1 := upsertBlockRow st ⟨chain, hash, numberI, block.block.parentHash, block⟩
        if block.transactionReceipts.all privateReceiptOk then
          let receiptRows := block.transactionReceipts.flatMap (fun r =>
            r.logs.map (fun log => ReceiptRow.mk (log.transactionHash.getD [])))
          let st2 := { st1 with receipts := insertReceiptRows receiptRows st1.receipts }
          if block.block.transactions.all privateTxOk then
            let txRows := block.block.transactions.map (fun tx =>
              TxRow.mk tx.hash numberI tx.toAddr)
            (.ok (), { st2 with transactions := insertTxRows txRows st2.transactions })
          else (.panicked, st)
        else (.panicked, st)

/-! ## Concrete fixtures used by witnesses and counterexamples -/

/-- The empty database with both clocks at zero. -/
def stEmpty : DbState :=
  ⟨[], [], [], [], [], [], [], [], 0, 0⟩

/-- A block payload with nothing in it. -/
def emptyEthBlock : EthereumBlock :=
  ⟨⟨none, none, [], []⟩, []⟩

/-- The private storage of the schema chain1. -/
def privChain1 : Storage :=
  .priv ⟨"chain1".toList⟩

/-- A state whose only call_meta row was last accessed the day before
CURRENT_DATE. -/
def c5State : DbState :=
  { stEmpty with callMeta := [⟨[1], 10⟩], today := 11 }

/-- A block payload carrying a hash but no number. -/
def blockNoNumber : EthereumBlock :=
  ⟨⟨some (List.replicate 32 1), none, List.replicate 32 0, []⟩, []⟩

/-- Three distinct 32-byte hashes for the C1 witness chain. -/
def h32A : Bytes := 1 :: List.replicate 31 0

/-- The absent parent hash of the C1 witness chain. -/
def h32P : Bytes := 2 :: List.replicate 31 0

/-- The genesis hash of the C1 witness chain. -/
def h32G : Bytes := 3 :: List.replicate 31 0

/-- A chain store over the private schema chain1 for the C1 witness. -/
def c1Store : ChainStoreModel := ⟨"c", privChain1, ⟨h32G, 0⟩⟩

/-- A state holding one block at height 1 whose parent is absent, with a
registry row whose head is NULL. -/
def c1State : DbState :=
  { stEmpty with
    blocks := [⟨"c", h32A, 1, h32P, emptyEthBlock⟩],
    networks := [⟨"c", none, none, 0, none, none, 0⟩] }

/-- A 20-byte address shared by two transactions of the same block. -/
def addr20 : Bytes := List.replicate 20 7

/-- A state with two transactions at block 3 paying the same address. -/
def c6State : DbState :=
  { stEmpty with transactions := [⟨[1], 3, some addr20⟩, ⟨[2], 3, some addr20⟩] }

/-- The blocks of the S5-style retention scenario: heights 0 through 5. -/
def s5Blocks : List BlockRow :=
  [⟨"c", [0], 0, [9], emptyEthBlock⟩, ⟨"c", [1], 1, [0], emptyEthBlock⟩,
   ⟨"c", [2], 2, [1], emptyEthBlock⟩, ⟨"c", [3], 3, [2], emptyEthBlock⟩,
   ⟨"c", [4], 4, [3], emptyEthBlock⟩, ⟨"c", [5], 5, [4], emptyEthBlock⟩]

/-- The S5-style retention scenario: head at 5, slowest consumer at 3. -/
def s5State : DbState :=
  { stEmpty with
    blocks := s5Blocks,
    networks := [⟨"c", some [5], some 5, 0, none, none, 0⟩],
    subgraphs := [⟨"c", some 3, false, true⟩] }

/-- The string "chain" followed by the Arabic-Indic digit three (U+0663),
a Unicode category-Nd character outside ASCII. -/
def chainArabic : RustString :=
  'c' :: 'h' :: 'a' :: 'i' :: 'n' :: [Char.ofNat 0x663]

/-- How many rows of a CTE fragment lack a parent hash (the rows the final
select of the missing-parent SQL returns). -/
def noneCount (l : List CteRow) : Nat :=
  (l.filter (fun r => r.parentHash = none)).length

/-- The primary-key invariant of the blocks table: the chain's rows carry
pairwise distinct hashes. -/
def chainHashesDistinct (storage : Storage) (st : DbState) (chain : String) : Prop :=
  (st.blocks.filter (blockInChain storage chain)).Pairwise (fun a b => a.hash ≠ b.hash)

/-- A duplicated block row (a corrupted primary key) at height 5 whose
parent is absent. -/
def c4State : DbState :=
  { stEmpty with blocks :=
      [⟨"c", [0xAA], 5, [0xBB], emptyEthBlock⟩,
       ⟨"c", [0xAA], 5, [0xBB], emptyEthBlock⟩] }

/-! ## C7: Shared upsert_balance -/

/-- Claim C7 (corrected): on the Shared variant, upsert_balance is a silent
no-op: the empty match arm falls through to Ok(()), so it returns success,
not an unsupported-operation error, and leaves the balance table (indeed,
the whole state) unchanged. -/
theorem upsert_balance_shared_silent_noop (st : DbState) (address : Bytes)
    (amount : Nat) (blockPtr : BlockPtr) :
    upsert_balance .shared st address amount blockPtr = (.ok (), st) :=
  rfl

/-- Counterexample to claim C7 as stated: at a concrete call on the Shared
variant the result is Ok, which is not an error of any kind, in particular
not the unsupported-operation error the claim requires. -/
theorem upsert_balance_shared_not_error :
    upsert_balance .shared stEmpty [1] 5 ⟨[2], 1⟩ = (.ok (), stEmpty)
    ∧ (RunResult.ok () : RunResult Unit) ≠ .error .unsupported :=
  ⟨rfl, by decide⟩

/-! ## C5: set_call never refreshes a stale call_meta row -/

/-- Claim C5 (code bug): the Private set_call upsert guards its update with
"where excluded.accessed_at < CURRENT_DATE", but the excluded row is the
proposed insert whose accessed_at is CURRENT_DATE itself, so the guard
never holds. At this input the stored accessed_at (day 10) is strictly
below CURRENT_DATE (day 11), the specified condition for refreshing it,
yet the row keeps the old date. -/
theorem set_call_stale_meta_not_refreshed :
    c5State.callMeta = [⟨[1], 10⟩] ∧ (10 : Int) < c5State.today
    ∧ (set_call privChain1 c5State [9] [1] 7 [2] [3] []).2.callMeta = [⟨[1], 10⟩] :=
  ⟨rfl, by decide, rfl⟩

/-! ## C8: confirm_block_hash is idempotent -/

/-- Claim C8 (confirmed): running confirm_block_hash twice deletes zero rows
on the second run and leaves the state of the first run untouched, and
after the first run every remaining block of the chain at the given number
carries the given hash. -/
theorem confirm_block_hash_idempotent (storage : Storage) (st : DbState)
    (chain : String) (n : Int) (h : Bytes) :
    (confirm_block_hash storage (confirm_block_hash storage st chain n h).2 chain n h).1 = 0
  ∧ (confirm_block_hash storage (confirm_block_hash storage st chain n h).2 chain n h).2
      = (confirm_block_hash storage st chain n h).2
  ∧ ∀ b ∈ (confirm_block_hash storage st chain n h).2.blocks,
      blockInChain storage chain b = true → b.number = n → b.hash = h := by
  have hff : ∀ (l : List BlockRow) (p : BlockRow → Bool),
      (l.filter p).filter p = l.filter p := by
    intro l p
    rw [List.filter_filter]
    exact List.filter_congr (fun a _ => Bool.and_self _)
  refine ⟨?_, ?_, ?_⟩
  · simp only [confirm_block_hash, hff, Nat.sub_self]
  · simp only [confirm_block_hash, hff]
  · intro b hb hin hnum
    simp only [confirm_block_hash, List.mem_filter] at hb
    by_contra hne
    simp [hin, hnum, hne] at hb

/-! ## C2: upsert_block on payloads lacking hash or number -/

/-- A row survives upsertBlockRow carrying the written fields. -/
theorem upsertBlockRow_mem (st : DbState) (row : BlockRow) :
    ∃ r ∈ (upsertBlockRow st row).blocks,
      r.hash = row.hash ∧ r.number = row.number
        ∧ r.parentHash = row.parentHash ∧ r.payload = row.payload := by
  unfold upsertBlockRow
  by_cases hex : st.blocks.any (fun b => b.hash = row.hash)
  · rw [if_pos hex]
    obtain ⟨b0, hb0m, hb0⟩ := List.any_eq_true.mp hex
    have hb0h : b0.hash = row.hash := by simpa using hb0
    refine ⟨{ b0 with number := row.number, parentHash := row.parentHash, payload := row.payload }, ?_, by simp [hb0h]⟩
    have := List.mem_map_of_mem (f := fun b =>
      if b.hash = row.hash then
        { b with number := row.number, parentHash := row.parentHash,
                 payload := row.payload }
      else b) hb0m
    simpa [hb0h] using this
  · rw [if_neg hex]
    exact ⟨row, by simp, rfl, rfl, rfl, rfl⟩

/-- Claim C2 (corrected): a payload lacking the number, or lacking the hash,
makes upsert_block panic through unwrap (a crash, not a returned
ConstraintViolation); when both are present the derivation succeeds and
(for a payload that carries no transactions or receipts, whose integrity
the claim does not govern) the call returns Ok, the Private variant having
written the block row with the derived number, hash and parent hash. -/
theorem upsert_block_hash_number_behavior (storage : Storage) (st : DbState)
    (chain : String) :
    (∀ b : EthereumBlock, b.block.number = none →
      upsert_block storage st chain b = (.panicked, st))
  ∧ (∀ b : EthereumBlock, b.block.hash = none → b.block.number ≠ none →
      upsert_block storage st chain b = (.panicked, st))
  ∧ (∀ (b : EthereumBlock) (n : Nat) (h : Bytes),
      b.block.number = some n → b.block.hash = some h →
      b.block.transactions = [] → b.transactionReceipts = [] →
      ∃ st2, upsert_block storage st chain b = (.ok (), st2)
        ∧ (∀ sch : Schema, storage = .priv sch →
            ∃ r ∈ st2.blocks, r.hash = h ∧ r.number = int64OfNat n
              ∧ r.parentHash = b.block.parentHash ∧ r.payload = b)) := by
  refine ⟨?_, ?_, ?_⟩
  · intro b hb
    simp [upsert_block, hb]
  · intro b hh hn
    obtain ⟨n, hn'⟩ := Option.ne_none_iff_exists'.mp hn
    cases storage <;> simp [upsert_block, hn', hh]
  · intro b n h hn hh htx hrc
    cases storage with
    | shared =>
      refine ⟨st, ?_, ?_⟩
      · show upsert_block .shared st chain b = (.ok (), st)
        simp [upsert_block, hn, hh, htx, insertTxRows]
      · intro sch hsc
        exact absurd hsc (by simp)
    | priv sch0 =>
      refine ⟨upsertBlockRow st ⟨chain, h, int64OfNat n, b.block.parentHash, b⟩,
        ?_, ?_⟩
      · show upsert_block (.priv sch0) st chain b
          = (.ok (), upsertBlockRow st ⟨chain, h, int64OfNat n, b.block.parentHash, b⟩)
        simp [upsert_block, hn, hh, htx, hrc, insertTxRows, insertReceiptRows]
      · intro sch hsc
        exact upsertBlockRow_mem st ⟨chain, h, int64OfNat n, b.block.parentHash, b⟩

/-- Counterexample to claim C2 as stated: on a concrete payload lacking the
number field, upsert_block panics (the unwrap crash) rather than failing
with a ConstraintViolation error result. -/
theorem upsert_block_missing_number_panics :
    upsert_block privChain1 stEmpty "c" blockNoNumber = (.panicked, stEmpty)
    ∧ (RunResult.panicked : RunResult Unit) ≠ .error .constraintViolation :=
  ⟨rfl, by decide⟩

/-! ## C1: a missing parent stops head advancement -/

/-- Claim C1 (confirmed): when the missing-parent walk reports Some for the
selected candidate, attempt_chain_head_update returns that hash, leaves the
whole state unchanged (in particular the registry row with its
head_block_hash and head_block_number), and sends no notification. -/
theorem attempt_chain_head_update_gap (cs : ChainStoreModel) (st : DbState)
    (ancestorCount : Int) (ptr : BlockPtr) (missing : Bytes)
    (hcand : chain_head_candidate cs.storage st cs.chain = .ok (some ptr))
    (hmiss : missing_parent cs.storage st cs.chain
        (firstBlockBound ptr.number ancestorCount) ptr.hash
        cs.genesisBlockPtr.hash = .ok (some missing)) :
    attempt_chain_head_update cs st ancestorCount = (.ok (some missing), st, none) := by
  unfold attempt_chain_head_update
  rw [hcand]
  simp [hmiss]

/-- Witness for claim C1 at a concrete gapped chain: the candidate is the
block at height 1, the walk reports its absent parent, and the update
returns it leaving the state alone. -/
theorem attempt_chain_head_update_gap_witness :
    attempt_chain_head_update c1Store c1State 10 = (.ok (some h32P), c1State, none) :=
  attempt_chain_head_update_gap c1Store c1State 10 ⟨h32A, 1⟩ h32P (by rfl) (by rfl)

/-! ## C6: balance_address_list keeps duplicates -/

/-- Multiplicity of each address in the Private find_transaction_address
result: the count of an address equals the number of stored transactions at
the block number whose target is that address. -/
theorem txAddrCount (txs : List TxRow) (num : Int) (a : Bytes) :
    ((txs.filter (fun t => decide (t.blockNumber = num) && t.toAddr.isSome)).map
      (fun t => t.toAddr.getD [])).count a
    = (txs.filter (fun t =>
        decide (t.blockNumber = num) && decide (t.toAddr = some a))).length := by
  induction txs with
  | nil => rfl
  | cons t ts ih =>
    by_cases hn : t.blockNumber = num
    · cases hto : t.toAddr with
      | none => simp [List.filter_cons, hn, hto, ih]
      | some b =>
        by_cases hb : b = a
        · simp [List.filter_cons, hn, hto, hb, List.count_cons, ih]
        · simp [List.filter_cons, hn, hto, hb, List.count_cons, ih]
    · simp [List.filter_cons, hn, ih]

/-- Claim C6 (corrected): balance_address_list defers to
find_transaction_address; the Shared variant returns the empty list, and
the Private variant returns the non-null target addresses of the
transactions at exactly the pointed number WITH multiplicity (the SQL has
no DISTINCT): every returned address belongs to such a transaction, every
such transaction contributes, and an address shared by several
transactions appears several times. Provided every stored target address
has 20 bytes (else H160::from_slice panics), the call succeeds. -/
theorem balance_address_list_multiset (cs : ChainStoreModel) (sch : Schema)
    (st : DbState) (ptr : BlockPtr) :
    balance_address_list cs st ptr = find_transaction_address cs.storage st ptr
  ∧ find_transaction_address .shared st ptr = .ok []
  ∧ ((∀ t ∈ st.transactions, ∀ a : Bytes, t.toAddr = some a → a.length = 20) →
      ∃ l, find_transaction_address (.priv sch) st ptr = .ok l
        ∧ (∀ a : Bytes, l.count a = (st.transactions.filter (fun t =>
            decide (t.blockNumber = ptr.number) && decide (t.toAddr = some a))).length)
        ∧ (∀ a ∈ l, ∃ t ∈ st.transactions,
            t.blockNumber = ptr.number ∧ t.toAddr = some a)) := by
  refine ⟨rfl, rfl, ?_⟩
  intro hlen
  have hmem : ∀ a ∈ (st.transactions.filter (fun t =>
      decide (t.blockNumber = ptr.number) && t.toAddr.isSome)).map
        (fun t => t.toAddr.getD []),
      ∃ t ∈ st.transactions, t.blockNumber = ptr.number ∧ t.toAddr = some a := by
    intro a ha
    obtain ⟨t, htm, hta⟩ := List.mem_map.mp ha
    obtain ⟨htl, htp⟩ := List.mem_filter.mp htm
    obtain ⟨hnum, hsome⟩ := by simpa using htp
    obtain ⟨b, hb⟩ := Option.isSome_iff_exists.mp hsome
    refine ⟨t, htl, hnum, ?_⟩
    rw [hb]
    rw [hb] at hta
    simpa using hta
  have hall : ((st.transactions.filter (fun t =>
      decide (t.blockNumber = ptr.number) && t.toAddr.isSome)).map
        (fun t => t.toAddr.getD [])).all (fun a => decide (a.length = 20)) = true := by
    rw [List.all_eq_true]
    intro a ha
    obtain ⟨t, htl, _, hto⟩ := hmem a ha
    simpa using hlen t htl a hto
  refine ⟨_, ?_, fun a => txAddrCount st.transactions ptr.number a, hmem⟩
  simp only [find_transaction_address]
  rw [if_pos hall]

/-- Counterexample to claim C6 as stated: at a concrete state two
transactions of block 3 share the target address, and the returned list
holds it twice, so the result is not a duplicate-free set. -/
theorem balance_address_list_duplicate :
    find_transaction_address privChain1 c6State ⟨[0], 3⟩ = .ok [addr20, addr20]
    ∧ ¬ ([addr20, addr20] : List Bytes).Nodup :=
  ⟨rfl, by decide⟩

/-! ## C10: the call-cache key ignores the block number -/

/-- find? skips a first segment none of whose elements satisfy the
predicate. -/
theorem findSkipLeft {α : Type} (p : α → Bool) (l1 l2 : List α)
    (h : l1.any p = false) : (l1 ++ l2).find? p = l2.find? p := by
  induction l1 with
  | nil => rfl
  | cons x xs ih =>
    rw [List.any_cons, Bool.or_eq_false_iff] at h
    simp [List.find?_cons, h.1, ih h.2]

/-- After set_call on a fresh id, the cache holds exactly the appended
entry for that id, whichever variant ran (the variants differ only in the
method columns). -/
theorem set_call_fresh_cache (storage : Storage) (st : DbState)
    (id c rv mid : Bytes) (bn : Int) (args : List String)
    (hfresh : st.callCache.any (fun r => r.id = id) = false) :
    ∃ mi mp, (set_call storage st id c bn rv mid args).2.callCache
      = st.callCache ++ [⟨id, rv, c, bn, mi, mp⟩] := by
  cases storage with
  | shared =>
    refine ⟨none, none, ?_⟩
    simp only [set_call, hfresh, Bool.false_eq_true, if_false]
  | priv sch =>
    refine ⟨some mid,
      if args.isEmpty then none else some (String.intercalate "," args), ?_⟩
    simp only [set_call, hfresh, Bool.false_eq_true, if_false]

/-- After set_call, a call_meta row for the contract exists, whichever
variant and conflict branch ran. -/
theorem set_call_meta_exists (storage : Storage) (st : DbState)
    (id c rv mid : Bytes) (bn : Int) (args : List String) :
    ∃ m ∈ (set_call storage st id c bn rv mid args).2.callMeta,
      m.contractAddress = c := by
  have hmap : ∀ (l : List CallMetaRow) (d : Int),
      l.any (fun r => r.contractAddress = c) = true →
      ∃ m ∈ l.map (fun r =>
          if r.contractAddress = c then { r with accessedAt := d } else r),
        m.contractAddress = c := by
    intro l d hl
    obtain ⟨m0, hm0, hc⟩ := List.any_eq_true.mp hl
    have hc2 : m0.contractAddress = c := by simpa using hc
    refine ⟨if m0.contractAddress = c then { m0 with accessedAt := d } else m0,
      List.mem_map_of_mem _ hm0, ?_⟩
    rw [if_pos hc2]
    exact hc2
  have happ : ∀ l : List CallMetaRow,
      ∃ m ∈ l ++ [(⟨c, st.today⟩ : CallMetaRow)], m.contractAddress = c :=
    fun l => ⟨⟨c, st.today⟩, by simp⟩
  have hold : st.callMeta.any (fun r => r.contractAddress = c) = true →
      ∃ m ∈ st.callMeta, m.contractAddress = c := by
    intro hl
    obtain ⟨m0, hm0, hc⟩ := List.any_eq_true.mp hl
    exact ⟨m0, hm0, by simpa using hc⟩
  by_cases hm : st.callMeta.any (fun r => r.contractAddress = c) = true
  · cases storage with
    | shared =>
      simp only [set_call, hm, if_true]
      exact hmap _ _ hm
    | priv sch =>
      simp only [set_call, hm, if_true]
      split
      · exact hmap _ _ hm
      · exact hold hm
  · rw [Bool.not_eq_true] at hm
    cases storage <;>
      simp only [set_call, hm, Bool.false_eq_true, if_false] <;>
      exact happ _

/-- Reading the cache when the id resolves to a stored row whose contract
has a meta row yields the stored return value. -/
theorem get_call_and_access_hit (storage : Storage) (st : DbState) (id : Bytes)
    (row : CallCacheRow)
    (hfind : st.callCache.find? (fun r => r.id = id) = some row)
    (hmeta : ∃ m ∈ st.callMeta, m.contractAddress = row.contractAddress) :
    ∃ stale, get_call_and_access storage st id = .ok (some (row.returnValue, stale)) := by
  have hsome : (st.callMeta.find? (fun m =>
      m.contractAddress = row.contractAddress)).isSome = true := by
    rw [List.find?_isSome]
    obtain ⟨m, hm, hc⟩ := hmeta
    exact ⟨m, hm, by simpa using hc⟩
  obtain ⟨m, hm⟩ := Option.isSome_iff_exists.mp hsome
  cases storage <;>
    exact ⟨st.today > m.accessedAt, by simp [get_call_and_access, hfind, hm]⟩

/-- Claim C10 (confirmed): the call-cache id feeds only the encoded call,
the contract address and the block hash to the digest (the hash function
itself being an arbitrary pure function, as BLAKE3 is), so two block
pointers agreeing on the hash derive the same id however their numbers
differ; consequently a set_call stored under one pointer is returned by a
get_call under the other. -/
theorem contract_call_id_ignores_number (blake3 : Bytes → Bytes)
    (cs : ChainStoreModel) (st : DbState) (c e rv mid : Bytes)
    (args : List String) (b1 b2 : BlockPtr)
    (hhash : b1.hash = b2.hash)
    (hfresh : st.callCache.any (fun r => r.id = contract_call_id blake3 c e b1) = false) :
    contract_call_id blake3 c e b1 = contract_call_id blake3 c e b2
    ∧ (chainStoreGetCall blake3 cs
        (chainStoreSetCall blake3 cs st c e b1 rv mid args).2 c e b2).1
      = .ok (some rv) := by
  have hid : contract_call_id blake3 c e b1 = contract_call_id blake3 c e b2 := by
    unfold contract_call_id
    rw [hhash]
  refine ⟨hid, ?_⟩
  obtain ⟨mi, mp, hcache⟩ := set_call_fresh_cache cs.storage st
    (contract_call_id blake3 c e b1) c rv mid b1.number args hfresh
  have hmeta := set_call_meta_exists cs.storage st
    (contract_call_id blake3 c e b1) c rv mid b1.number args
  set st1 := (set_call cs.storage st (contract_call_id blake3 c e b1) c
    b1.number rv mid args).2 with hst1
  have hfind : st1.callCache.find?
      (fun r => r.id = contract_call_id blake3 c e b1)
      = some ⟨contract_call_id blake3 c e b1, rv, c, b1.number, mi, mp⟩ := by
    rw [hcache, findSkipLeft _ _ _ hfresh]
    simp [List.find?_cons]
  obtain ⟨stale, hhit⟩ := get_call_and_access_hit cs.storage st1
    (contract_call_id blake3 c e b1)
    ⟨contract_call_id blake3 c e b1, rv, c, b1.number, mi, mp⟩ hfind hmeta
  simp only [chainStoreGetCall, chainStoreSetCall, ← hid, ← hst1, hhit]

/-- Witness for claim C10 with the identity function standing for the
digest: storing under block (hash 7, number 1) and reading under
(hash 7, number 2) hits the same entry. -/
theorem contract_call_id_ignores_number_witness :
    contract_call_id (fun l => l) [1] [2] ⟨[7], 1⟩
      = contract_call_id (fun l => l) [1] [2] ⟨[7], 2⟩
    ∧ (chainStoreGetCall (fun l => l) ⟨"c", privChain1, ⟨[0], 0⟩⟩
        (chainStoreSetCall (fun l => l) ⟨"c", privChain1, ⟨[0], 0⟩⟩ stEmpty
          [1] [2] ⟨[7], 1⟩ [3] [4] []).2
        [1] [2] ⟨[7], 2⟩).1 = .ok (some [3]) :=
  contract_call_id_ignores_number (fun l => l) ⟨"c", privChain1, ⟨[0], 0⟩⟩
    stEmpty [1] [2] [3] [4] [] ⟨[7], 1⟩ ⟨[7], 2⟩ rfl rfl

/-! ## C9: retention never reaches the genesis block, the slowest consumer
or the recent ancestors -/

/-- Claim C9 (confirmed): delete_blocks_before removes exactly the chain's
blocks with 0 < number < bound; a block removed by cleanup_cached_blocks
is never the genesis block, always sits strictly below the minimum
subgraph head when one exists, and strictly below head minus
ancestor_count when the chain has a head; and a non-positive cutoff
removes nothing. -/
theorem cleanup_cached_blocks_bounds (storage : Storage) (cs : ChainStoreModel)
    (st : DbState) (chain : String) (bound k : Int) :
    (∀ r : BlockRow, r ∈ (delete_blocks_before storage st chain bound).2.blocks ↔
      (r ∈ st.blocks
        ∧ ¬(blockInChain storage chain r = true ∧ 0 < r.number ∧ r.number < bound)))
  ∧ (∀ r : BlockRow, r ∈ st.blocks → r ∉ (cleanup_cached_blocks cs st k).2.blocks →
      r.number ≠ 0
      ∧ (∀ m, subgraphMinBlock st cs.chain = some m → r.number < m)
      ∧ (∀ hb, cleanupHeadBound st cs.chain k = some hb → r.number < hb))
  ∧ (cleanupCutoff st cs.chain k ≤ 0 → cleanup_cached_blocks cs st k = (.ok none, st)) := by
  have hmem_iff : ∀ (sto : Storage) (ch : String) (b : Int) (r : BlockRow),
      r ∈ (delete_blocks_before sto st ch b).2.blocks ↔
      (r ∈ st.blocks ∧ ¬(blockInChain sto ch r = true ∧ 0 < r.number ∧ r.number < b)) := by
    intro sto ch b r
    simp only [delete_blocks_before, List.mem_filter]
    constructor
    · rintro ⟨hmem, hkeep⟩
      refine ⟨hmem, ?_⟩
      rintro ⟨hin, hpos, hlt⟩
      simp [hin, hpos, hlt] at hkeep
    · rintro ⟨hmem, hcon⟩
      refine ⟨hmem, ?_⟩
      by_contra hk
      apply hcon
      simp only [Bool.not_eq_true] at hk
      have hk2 : (blockInChain sto ch r && decide (r.number < b)
          && decide (0 < r.number)) = true := by
        revert hk
        cases blockInChain sto ch r && decide (r.number < b) && decide (0 < r.number) <;> simp
      simp only [Bool.and_eq_true, decide_eq_true_eq] at hk2
      exact ⟨hk2.1.1, hk2.2, hk2.1.2⟩
  refine ⟨fun r => hmem_iff storage chain bound r, ?_, ?_⟩
  · intro r hmem hnot
    by_cases hpos : cleanupCutoff st cs.chain k > 0
    · rw [cleanup_cached_blocks, if_pos hpos] at hnot
      have hdel : blockInChain cs.storage cs.chain r = true ∧ 0 < r.number
          ∧ r.number < cleanupCutoff st cs.chain k := by
        by_contra hcon
        exact hnot ((hmem_iff cs.storage cs.chain _ r).mpr ⟨hmem, hcon⟩)
      obtain ⟨-, hrpos, hrlt⟩ := hdel
      refine ⟨by omega, ?_, ?_⟩
      · intro m hm
        have hle : cleanupCutoff st cs.chain k ≤ m := by
          unfold cleanupCutoff
          rw [hm]
          cases hhb : cleanupHeadBound st cs.chain k <;>
            simp [leastOpt, min_le_left]
        omega
      · intro hb hhb
        have hle : cleanupCutoff st cs.chain k ≤ hb := by
          unfold cleanupCutoff
          rw [hhb]
          cases hsm : subgraphMinBlock st cs.chain <;>
            simp [leastOpt, min_le_right]
        omega
    · rw [cleanup_cached_blocks, if_neg hpos] at hnot
      exact absurd hmem hnot
  · intro hle
    rw [cleanup_cached_blocks, if_neg (by omega)]

/-- Witness for claim C9 at the specification's retention scenario: the
cutoff is min(3, 5 - 1) = 3, blocks 1 and 2 are removed, and heights
0, 3, 4, 5 stay. -/
theorem cleanup_cached_blocks_bounds_witness :
    cleanup_cached_blocks ⟨"c", privChain1, ⟨[0], 0⟩⟩ s5State 1
      = (.ok (some (3, 2)),
         { s5State with blocks :=
            [⟨"c", [0], 0, [9], emptyEthBlock⟩, ⟨"c", [3], 3, [2], emptyEthBlock⟩,
             ⟨"c", [4], 4, [3], emptyEthBlock⟩, ⟨"c", [5], 5, [4], emptyEthBlock⟩] }) :=
  rfl

/-! ## C3: parsing a storage namespace -/

/-- Given the chain prefix, byte length at most 5 means an empty remainder. -/
theorem rustStrLen_le_five_iff (s : RustString)
    (h : s.take 5 = "chain".toList) : rustStrLen s ≤ 5 ↔ s.drop 5 = [] := by
  have hs : s = "chain".toList ++ s.drop 5 := by
    conv_lhs => rw [← List.take_append_drop 5 s]
    rw [h]
  have hfive : rustStrLen "chain".toList = 5 := rfl
  have hsplit : rustStrLen s = 5 + rustStrLen (s.drop 5) := by
    conv_lhs => rw [hs]
    unfold rustStrLen
    rw [List.map_append, List.sum_append]
    rw [show ((("chain".toList).map Char.utf8Size).sum) = 5 from rfl]
  have hzero : rustStrLen (s.drop 5) = 0 ↔ s.drop 5 = [] := by
    unfold rustStrLen
    rw [List.sum_eq_zero_iff]
    constructor
    · intro hz
      cases hd : s.drop 5 with
      | nil => rfl
      | cons c cs =>
        exfalso
        have h1 := hz c.utf8Size (by rw [hd]; simp)
        have h2 : 0 < c.utf8Size := Char.utf8Size_pos c
        omega
    · intro hd
      rw [hd]
      simp
  rw [hsplit]
  constructor
  · intro hle
    exact hzero.mp (by omega)
  · intro he
    have := hzero.mpr he
    omega

/-- Claim C3 (corrected): parsing yields Shared exactly on "public" and
Private exactly when the string starts with "chain" and carries a nonempty
remainder every char of which satisfies Rust char::is_numeric, which
admits every Unicode category-N character, not only the ASCII digits the
specification's regular expression chain[0-9]+ allows; every other string
fails. -/
theorem storageNew_characterization (s : RustString) :
    (storageNew s = .ok .shared ↔ s = "public".toList)
  ∧ (storageNew s = .ok (.priv ⟨s⟩) ↔
      (s ≠ "public".toList ∧ s.take 5 = "chain".toList ∧ s.drop 5 ≠ []
        ∧ (s.drop 5).all rustCharIsNumeric = true))
  ∧ (storageNew s = .error s ↔
      (s ≠ "public".toList
        ∧ ¬(s.take 5 = "chain".toList ∧ s.drop 5 ≠ []
            ∧ (s.drop 5).all rustCharIsNumeric = true))) := by
  by_cases hp : s = "public".toList
  · have he : storageNew s = .ok .shared := by rw [storageNew, if_pos hp]
    refine ⟨⟨fun _ => hp, fun _ => he⟩, ?_, ?_⟩
    · exact ⟨(fun h => nomatch (he.symm.trans h)), fun ⟨hne, _⟩ => absurd hp hne⟩
    · exact ⟨(fun h => nomatch (he.symm.trans h)), fun ⟨hne, _⟩ => absurd hp hne⟩
  · by_cases hc : s.take 5 = "chain".toList
    · by_cases hlen : rustStrLen s ≤ 5
      · have hdrop : s.drop 5 = [] := (rustStrLen_le_five_iff s hc).mp hlen
        have he : storageNew s = .error s := by
          rw [storageNew, if_neg hp, if_pos (Or.inr hlen)]
        refine ⟨⟨(fun h => nomatch (he.symm.trans h)), fun h => absurd h hp⟩, ?_, ?_⟩
        · exact ⟨(fun h => nomatch (he.symm.trans h)),
            fun ⟨_, _, hd, _⟩ => absurd hdrop hd⟩
        · exact ⟨fun _ => ⟨hp, fun ⟨_, hd, _⟩ => hd hdrop⟩, fun _ => he⟩
      · have hdrop : s.drop 5 ≠ [] :=
          fun he2 => hlen ((rustStrLen_le_five_iff s hc).mpr he2)
        by_cases hall : (s.drop 5).all rustCharIsNumeric = true
        · have he : storageNew s = .ok (.priv ⟨s⟩) := by
            rw [storageNew, if_neg hp,
              if_neg (not_or.mpr ⟨not_not_intro hc, hlen⟩), if_pos hall]
          refine ⟨⟨(fun h => nomatch (he.symm.trans h)), fun h => absurd h hp⟩, ?_, ?_⟩
          · exact ⟨fun _ => ⟨hp, hc, hdrop, hall⟩, fun _ => he⟩
          · exact ⟨(fun h => nomatch (he.symm.trans h)),
              fun ⟨_, hno⟩ => absurd ⟨hc, hdrop, hall⟩ hno⟩
        · have he : storageNew s = .error s := by
            rw [storageNew, if_neg hp,
              if_neg (not_or.mpr ⟨not_not_intro hc, hlen⟩), if_neg hall]
          refine ⟨⟨(fun h => nomatch (he.symm.trans h)), fun h => absurd h hp⟩, ?_, ?_⟩
          · exact ⟨(fun h => nomatch (he.symm.trans h)),
              fun ⟨_, _, _, ha⟩ => absurd ha hall⟩
          · exact ⟨fun _ => ⟨hp, fun ⟨_, _, ha⟩ => hall ha⟩, fun _ => he⟩
    · have he : storageNew s = .error s := by
        rw [storageNew, if_neg hp, if_pos (Or.inl hc)]
      refine ⟨⟨(fun h => nomatch (he.symm.trans h)), fun h => absurd h hp⟩, ?_, ?_⟩
      · exact ⟨(fun h => nomatch (he.symm.trans h)),
          fun ⟨_, htk, _⟩ => absurd htk hc⟩
      · exact ⟨fun _ => ⟨hp, fun ⟨htk, _⟩ => hc htk⟩, fun _ => he⟩

/-- Counterexample to claim C3 as stated: the source accepts
"chain" + U+0663 as a Private namespace because char::is_numeric holds for
every Unicode numeric character, while the claim's regular expression
chain[0-9]+ rejects it. -/
theorem storageNew_accepts_unicode_digit :
    storageNew chainArabic = .ok (.priv ⟨chainArabic⟩)
    ∧ specChainNamespace chainArabic = false :=
  ⟨rfl, rfl⟩

/-! ## C4: the missing-parent walk on zero, one or several rows -/

/-- A hash-keyed lookup over a list with pairwise distinct hashes returns at
most one row. -/
theorem filter_hash_length_le_one {l : List BlockRow}
    (hdist : l.Pairwise (fun a b => a.hash ≠ b.hash)) (p : Bytes) :
    (l.filter (fun b => b.hash = p)).length ≤ 1 := by
  induction l with
  | nil => simp
  | cons x xs ih =>
    rw [List.pairwise_cons] at hdist
    obtain ⟨hx, hxs⟩ := hdist
    by_cases hxp : x.hash = p
    · have hnil : xs.filter (fun b => b.hash = p) = [] := by
        rw [List.filter_eq_nil_iff]
        intro b hb
        simp only [decide_eq_true_eq]
        intro hbp
        exact hx b hb (hxp.trans hbp.symm)
      rw [List.filter_cons, if_pos (by simpa using hxp), hnil]
      simp
    · rw [List.filter_cons, if_neg (by simpa using hxp)]
      exact ih hxs

/-- The chain-scoped hash lookup as the expand step runs it, rewritten
through the chain filter. -/
theorem filter_inchain_hash (storage : Storage) (st : DbState) (chain : String)
    (p : Bytes) :
    st.blocks.filter (fun b => blockInChain storage chain b && decide (b.hash = p))
      = (st.blocks.filter (blockInChain storage chain)).filter
          (fun b => b.hash = p) := by
  rw [List.filter_filter]
  exact (List.filter_congr (fun b _ => Bool.and_comm _ _)).symm

/-- Under the primary-key invariant, one expand step emits at most one row,
and any emitted parentless row has its last flag set. -/
theorem cteExpand_shape (storage : Storage) (st : DbState) (chain : String)
    (firstBlock : Int) (genesis : Bytes)
    (hdist : chainHashesDistinct storage st chain) (r : CteRow) :
    (cteExpand storage st chain firstBlock genesis r).length ≤ 1
    ∧ ∀ r2 ∈ cteExpand storage st chain firstBlock genesis r,
        r2.parentHash = none → r2.last = true := by
  unfold cteExpand
  cases hph : r.parentHash with
  | none => simp
  | some p =>
    dsimp only
    have hlen : (st.blocks.filter (fun b =>
        blockInChain storage chain b && decide (b.hash = p))).length ≤ 1 := by
      rw [filter_inchain_hash]
      exact filter_hash_length_le_one hdist p
    by_cases hj : (st.blocks.filter (fun b =>
        blockInChain storage chain b && decide (b.hash = p))).isEmpty
    · rw [if_pos hj]
      exact ⟨by simp, by intro r2 hr2; simp at hr2; simp [hr2]⟩
    · rw [if_neg hj]
      constructor
      · simpa using hlen
      · intro r2 hr2 hnone
        obtain ⟨b, _, hb⟩ := List.mem_map.mp hr2
        rw [← hb] at hnone
        exact absurd hnone (by simp)

/-- noneCount distributes over append. -/
theorem noneCount_append (l1 l2 : List CteRow) :
    noneCount (l1 ++ l2) = noneCount l1 + noneCount l2 := by
  unfold noneCount
  rw [List.filter_append, List.length_append]

/-- Core invariant of the CTE iteration: when every step emits at most one
row, parentless rows terminate their branch, the frontier holds at most one
row, the accumulator has at most one parentless row, and a parentless row
in the accumulator means the frontier is exhausted, the accumulated rows
keep at most one parentless row. -/
theorem cteRun_noneCount (expand : CteRow → List CteRow)
    (hexp : ∀ r, (expand r).length ≤ 1
      ∧ ∀ r2 ∈ expand r, r2.parentHash = none → r2.last = true) :
    ∀ (fuel : Nat) (frontier acc : List CteRow),
      frontier.length ≤ 1 →
      (∀ r ∈ frontier, r.parentHash = none → r.last = true) →
      noneCount acc ≤ 1 →
      (1 ≤ noneCount acc → frontier.filter (fun r => !r.last) = []) →
      noneCount (cteRun expand fuel frontier acc) ≤ 1 := by
  intro fuel
  induction fuel with
  | zero =>
    intro frontier acc _ _ hacc _
    simpa [cteRun] using hacc
  | succ fuel ih =>
    intro frontier acc hflen hfnone hacc himp
    rw [cteRun]
    by_cases hempty :
        ((frontier.filter (fun r => !r.last)).flatMap expand).isEmpty
    · rw [if_pos hempty]
      exact hacc
    · rw [if_neg hempty]
      have hlive_ne : frontier.filter (fun r => !r.last) ≠ [] := by
        intro h0
        apply hempty
        rw [h0]
        rfl
      have hlivelen : (frontier.filter (fun r => !r.last)).length ≤ 1 :=
        le_trans (List.length_filter_le _ _) hflen
      obtain ⟨r, hr⟩ : ∃ r, frontier.filter (fun r => !r.last) = [r] := by
        cases hl : frontier.filter (fun r => !r.last) with
        | nil => exact absurd hl hlive_ne
        | cons a t =>
          cases t with
          | nil => exact ⟨a, rfl⟩
          | cons b t2 => rw [hl] at hlivelen; simp at hlivelen
      have hacc0 : noneCount acc = 0 := by
        by_contra hne
        have h1 : 1 ≤ noneCount acc := by omega
        rw [himp h1] at hr
        exact nomatch hr
      have hnexteq : (frontier.filter (fun r => !r.last)).flatMap expand
          = expand r := by
        rw [hr]
        simp
      have hnextlen : ((frontier.filter (fun r => !r.last)).flatMap expand).length ≤ 1 := by
        rw [hnexteq]
        exact (hexp r).1
      obtain ⟨r2, hr2⟩ : ∃ r2,
          (frontier.filter (fun r => !r.last)).flatMap expand = [r2] := by
        cases hl : (frontier.filter (fun r => !r.last)).flatMap expand with
        | nil =>
          rw [hl] at hempty
          exact absurd rfl hempty
        | cons a t =>
          cases t with
          | nil => exact ⟨a, rfl⟩
          | cons b t2 => rw [hl] at hnextlen; simp at hnextlen
      have hr2none : r2.parentHash = none → r2.last = true := by
        intro hn
        refine (hexp r).2 r2 ?_ hn
        rw [← hnexteq, hr2]
        simp
      rw [hr2]
      apply ih [r2] (acc ++ [r2])
      · simp
      · intro x hx
        have : x = r2 := by simpa using hx
        subst this
        exact hr2none
      · rw [noneCount_append, hacc0]
        unfold noneCount
        simp only [Nat.zero_add]
        exact le_trans (List.length_filter_le _ _) (by simp)
      · intro h1
        rw [noneCount_append, hacc0, Nat.zero_add] at h1
        have hnone : r2.parentHash = none := by
          by_contra hcon
          unfold noneCount at h1
          rw [List.filter_cons] at h1
          simp [hcon] at h1
        rw [List.filter_cons, if_neg (by simp [hr2none hnone])]
        rfl

/-- Under the primary-key invariant, the missing-parent walk returns at
most one row. -/
theorem missingParentRows_le_one (storage : Storage) (st : DbState)
    (chain : String) (firstBlock : Int) (hash genesis : Bytes)
    (hdist : chainHashesDistinct storage st chain) :
    (missingParentRows storage st chain firstBlock hash genesis).length ≤ 1 := by
  unfold missingParentRows
  rw [List.length_map]
  have hbaselen : (cteBase storage st chain hash genesis).length ≤ 1 := by
    unfold cteBase
    rw [List.length_map]
    have heq : st.blocks.filter (fun b => blockInChain storage chain b
        && decide (b.hash = hash) && decide (b.hash ≠ genesis))
        = ((st.blocks.filter (blockInChain storage chain)).filter
            (fun b => b.hash = hash)).filter (fun b => b.hash ≠ genesis) := by
      rw [List.filter_filter, List.filter_filter]
      refine (List.filter_congr (fun b _ => ?_)).symm
      cases blockInChain storage chain b <;>
        cases hbh : decide (b.hash = hash) <;>
        cases hbg : decide (b.hash ≠ genesis) <;> simp [hbh, hbg]
    rw [heq]
    exact le_trans (List.length_filter_le _ _)
      (filter_hash_length_le_one hdist hash)
  have hbasenone : noneCount (cteBase storage st chain hash genesis) = 0 := by
    unfold noneCount cteBase
    rw [List.filter_eq_nil_iff.mpr]
    · rfl
    · intro r hr
      obtain ⟨b, _, hb⟩ := List.mem_map.mp hr
      rw [← hb]
      simp
  exact cteRun_noneCount _
    (cteExpand_shape storage st chain firstBlock genesis hdist)
    (st.blocks.length + 2) _ _
    hbaselen
    (by
      intro r hr
      obtain ⟨b, _, hb⟩ := List.mem_map.mp hr
      rw [← hb]
      simp)
    (by rw [hbasenone]; omega)
    (by rw [hbasenone]; omega)

/-- Claim C4 (corrected): more than one result row makes missing_parent hit
the unreachable! arm and panic, a crash rather than a returned
ConstraintViolation; zero rows yield None and a single 32-byte row yields
Some of it; and under the primary-key invariant on the chain's block
hashes a second row cannot occur, so the walk then never panics. -/
theorem missing_parent_row_count (storage : Storage) (st : DbState)
    (chain : String) (firstBlock : Int) (hash genesis : Bytes) :
    (2 ≤ (missingParentRows storage st chain firstBlock hash genesis).length →
      missing_parent storage st chain firstBlock hash genesis = .panicked)
  ∧ (missingParentRows storage st chain firstBlock hash genesis = [] →
      missing_parent storage st chain firstBlock hash genesis = .ok none)
  ∧ (∀ x, missingParentRows storage st chain firstBlock hash genesis = [x] →
      x.length = 32 →
      missing_parent storage st chain firstBlock hash genesis = .ok (some x))
  ∧ (chainHashesDistinct storage st chain →
      missing_parent storage st chain firstBlock hash genesis ≠ .panicked) := by
  refine ⟨?_, ?_, ?_, ?_⟩
  · intro h2
    cases hrows : missingParentRows storage st chain firstBlock hash genesis with
    | nil => rw [hrows] at h2; simp at h2
    | cons a t =>
      cases t with
      | nil => rw [hrows] at h2; simp at h2
      | cons b t2 => cases storage <;> simp [missing_parent, hrows]
  · intro hrows
    cases storage <;> simp [missing_parent, hrows]
  · intro x hrows hx
    cases storage <;> simp [missing_parent, hrows, hx]
  · intro hdist
    have hle := missingParentRows_le_one storage st chain firstBlock hash
      genesis hdist
    cases hrows : missingParentRows storage st chain firstBlock hash genesis with
    | nil => cases storage <;> simp [missing_parent, hrows]
    | cons a t =>
      cases t with
      | nil =>
        cases storage <;> simp only [missing_parent, hrows] <;>
          split <;> simp
      | cons b t2 =>
        rw [hrows] at hle
        simp at hle

/-- Counterexample to claim C4 as stated: with the head block duplicated and
its parent absent the walk returns two rows, and missing_parent panics at
the unreachable! arm instead of returning a ConstraintViolation error. -/
theorem missing_parent_duplicate_panics :
    missing_parent privChain1 c4State "c" 0 [0xAA] [0x00] = .panicked
    ∧ (RunResult.panicked : RunResult (Option Bytes)) ≠ .error .constraintViolation :=
  ⟨rfl, by decide⟩

end RelNode
